import Mathlib

/-!
Verification development for the e-commerce catalog enrichment pipeline
(`src/enrichment/pipeline.py`, `src/enrichment/catalog_io.py`,
`src/enrichment/status.py`).

Shallow embedding conventions:
* Python numbers are embedded as exact fractions (`Frac`, an integer
  numerator with a positive natural denominator, not kept reduced; all
  arithmetic is exact).  `float` values carried by the `price` field are
  embedded as `PyFloat`, which keeps the non-finite values `inf`, `-inf`,
  `nan` so that `math.isfinite` is a non-trivial predicate.  `round(x, 2)`
  is embedded as `round2` (round half up on exact fractions; no value proved
  about below sits on an exact tie, where CPython's float-based bankers
  rounding could differ).
* Python string operations (`lower`, `title`, `strip`, `split`, `replace`,
  comparison) are embedded structurally over the character list of the
  string, matching CPython's code-point semantics on the ASCII inputs the
  pipeline manipulates.
* Python dicts with string keys are embedded as association lists
  (`List (String × Val)`) with in-place update semantics (`dictSet`), which
  matches CPython's insertion-order preserving assignment.
* The optional OpenAI text-generation dependency is embedded as an abstract
  oracle `TextGen`; `Option TextGen` is the capability-availability state
  (`none` = `OPENAI_API_KEY` unset / openai missing).  A fixed oracle models
  "identical capability-availability state" across runs.
* Exceptions are embedded with `Except PipeError`; the mutable per-run event
  list is threaded explicitly, and errors carry the event list as it stood
  when the exception was raised (the list object the Python code had been
  mutating in place).
* Wall-clock concerns (`time.sleep`, timestamps) and logging are outside the
  model; `WorkflowEvent` keeps step/message/payload, dropping the timestamp.
-/

/-- Exact fraction: `num / den` with `den` a positive natural number.  Not
kept in lowest terms; every operation below is exact rational arithmetic. -/
structure Frac where
  num : Int
  den : Nat := 1
deriving Repr, DecidableEq

/-- Fraction with value `n`. -/
def Frac.ofNat (n : Nat) : Frac := ⟨n, 1⟩

/-- Exact multiplication. -/
def Frac.mul (a b : Frac) : Frac := ⟨a.num * b.num, a.den * b.den⟩

/-- Exact addition. -/
def Frac.add (a b : Frac) : Frac := ⟨a.num * b.den + b.num * a.den, a.den * b.den⟩

/-- Exact division (caller never divides by a zero value here). -/
def Frac.div (a b : Frac) : Frac :=
  if b.num < 0 then ⟨a.num * (-(b.den : Int)), a.den * b.num.natAbs⟩
  else ⟨a.num * b.den, a.den * b.num.natAbs⟩

/-- Negation. -/
def Frac.neg (a : Frac) : Frac := ⟨-a.num, a.den⟩

/-- Floor to an integer (`Int.fdiv` rounds toward negative infinity). -/
def Frac.floor (a : Frac) : Int := a.num.fdiv a.den

/-- Value-level zero test (`bool(x)` on a float is false exactly for zero). -/
def Frac.isZero (a : Frac) : Bool := a.num = 0

/-- Embedding of a Python float as carried by the `price` field: an exact
fraction for finite values, plus the three non-finite values. -/
inductive PyFloat where
  | finite (q : Frac)
  | inf
  | negInf
  | nan
deriving Repr, DecidableEq

/-- Embedding of `math.isfinite`. -/
def PyFloat.isFinite : PyFloat → Bool
  | .finite _ => true
  | _ => false

/-- Embedding of Python truthiness (`bool(x)`) on floats: only zero is falsy
(`nan` and the infinities are truthy). -/
def PyFloat.pyBool : PyFloat → Bool
  | .finite q => ¬ q.isZero
  | _ => true

/-- Embedding of the dynamically typed values stored in `attributes` mappings
and event payloads: strings, numbers, `None`, and nested string-keyed dicts. -/
inductive Val where
  | str (s : String)
  | num (q : Frac)
  | pyNone
  | dict (entries : List (String × Val))
deriving Repr

/-- Embedding of `status.WorkflowEvent` (step, message, optional payload; the
UTC timestamp is real-time data outside the model). -/
structure WorkflowEvent where
  step : String
  message : String
  payload : Option (List (String × Val)) := none
deriving Repr

/-- Embedding of a product record (the input dict).  Each recognized key is an
`Option` field, `none` meaning the key is absent from the dict. -/
structure Product where
  sku : Option String := none
  name : Option String := none
  description : Option String := none
  category : Option String := none
  price : Option PyFloat := none
  currency : Option String := none
  attributes : List (String × Val) := []
deriving Repr

/-- SEO copy as produced by the copywrite stage (`_fallback_seo_copy` result
shape; AI replies are parsed into the same shape, `long_description` being
`none` when the reply lacks the key). -/
structure Seo where
  title : String
  description : String
  keywords : List String
  long_description : Option String := none
deriving Repr

/-- The `title`/`description`/`long_description` triple exchanged with the
localization calls (`base_copy` and the parsed translation replies). -/
structure LocalizedText where
  title : String
  description : String
  long_description : String
deriving Repr

/-- One localization entry; `long_description` is `none` when the produced
dict lacks the key (the fallback path omits it). -/
structure Loc where
  locale : String
  title : String
  description : String
  long_description : Option String := none
deriving Repr

/-- The `pricing` dict computed by `_validate_product`. -/
structure Pricing where
  currency : String
  price : PyFloat
  in_stock : Bool
deriving Repr

/-- The `enriched` dict assembled by `_node_publish` (the `EnrichedProduct`
contract shape). -/
structure Enriched where
  sku : String
  name : String
  normalized_attributes : List (String × Val)
  seo : Option Seo
  localizations : List Loc
  pricing : Option Pricing
deriving Repr

/-- Embedding of `EnrichmentState`: the mutable state bag threaded through the
six stages.  Stage outputs are `Option`s, `none` before the owning stage ran. -/
structure EnrichmentState where
  product : Product
  events : List WorkflowEvent
  normalized_attributes : Option (List (String × Val)) := none
  pricing : Option Pricing := none
  seo : Option Seo := none
  localizations : Option (List Loc) := none
  enriched : Option Enriched := none
deriving Repr

/-- Embedding of the dataclass `ProcessedProduct`. -/
structure ProcessedProduct where
  sku : String
  original : Product
  enriched : Enriched
  events : List WorkflowEvent
deriving Repr

/-- The exceptions the pipeline can raise: the `ValueError` from
`_validate_product` (carrying the missing-field list, the formatted message,
and the event list as mutated up to the raise), the `KeyError` from a
`product["…"]` subscript, and the `RuntimeError` from `enrich_product`. -/
inductive PipeError where
  | validation (missing : List String) (message : String) (events : List WorkflowEvent)
  | keyError (key : String) (events : List WorkflowEvent)
  | runtime (message : String) (events : List WorkflowEvent)
deriving Repr

/-- Abstract text-generation oracle: one method per AI-assisted call site,
each returning parsed structured data plus a token-usage count, or an error
string (connection error / unparseable reply).  A value of `Option TextGen`
is the capability-availability state. -/
structure TextGen where
  extractAttrs : Product → Except String (List (String × Val) × Nat)
  genSeo : Product → List (String × Val) → Except String (Seo × Nat)
  translate : String → LocalizedText → Except String (LocalizedText × Nat)

/-- The module constant `WORKFLOW_STEPS`. -/
def WORKFLOW_STEPS : List String :=
  ["ingest", "extract", "validate", "copywrite", "localize", "publish"]

/-! ### Python string / dict primitives -/

/-- Embedding of Python `str.lower()` (character-wise, ASCII letters). -/
def pyLower (s : String) : String := ⟨s.data.map Char.toLower⟩

/-- Character-wise worker for `str.title()`. -/
def pyTitleGo : Bool → List Char → List Char
  | _, [] => []
  | prevAlpha, c :: rest =>
    let c' := if c.isAlpha then (if prevAlpha then c.toLower else c.toUpper) else c
    c' :: pyTitleGo c.isAlpha rest

/-- Embedding of Python `str.title()` (ASCII letters). -/
def pyTitle (s : String) : String := ⟨pyTitleGo false s.data⟩

/-- Embedding of Python `str.strip()`: drop leading and trailing whitespace. -/
def pyStrip (s : String) : String :=
  ⟨((s.data.dropWhile Char.isWhitespace).reverse.dropWhile Char.isWhitespace).reverse⟩

/-- Embedding of `str.replace(" ", "_")` (single-character pattern). -/
def pyReplaceChar (s : String) (c1 c2 : Char) : String :=
  ⟨s.data.map (fun c => if c = c1 then c2 else c)⟩

/-- Split a character list on a fixed two-character separator, Python
`str.split(sep)` semantics (every non-overlapping occurrence, left to
right). -/
def splitOnPair (a b : Char) : List Char → List (List Char)
  | [] => [[]]
  | [c] => [[c]]
  | c1 :: c2 :: rest =>
    if c1 = a ∧ c2 = b then [] :: splitOnPair a b rest
    else
      match splitOnPair a b (c2 :: rest) with
      | [] => [[c1]]
      | p :: ps => (c1 :: p) :: ps

/-- Embedding of `s.split(sep)` for the two-character separators (`"oz"`,
`"lb"`) the pipeline uses. -/
def pySplit2 (s : String) (a b : Char) : List String :=
  (splitOnPair a b s.data).map (fun cs => ⟨cs⟩)

/-- Lexicographic (code-point) comparison of character lists, the semantics
of Python `<` on strings. -/
def charListLt : List Char → List Char → Bool
  | [], [] => false
  | [], _ :: _ => true
  | _ :: _, [] => false
  | a :: as, b :: bs => if a = b then charListLt as bs else decide (a < b)

/-- Python string `<`. -/
def pyStrLt (a b : String) : Bool := charListLt a.data b.data

/-- Embedding of `", ".join(xs)` / `str.join`. -/
def pyJoin (sep : String) : List String → String
  | [] => ""
  | [s] => s
  | s :: rest => s ++ sep ++ pyJoin sep rest

/-- Longest digit prefix of a character list, with the remainder. -/
def spanDigits : List Char → List Char × List Char
  | [] => ([], [])
  | c :: rest =>
    if c.isDigit then
      let (d, r) := spanDigits rest
      (c :: d, r)
    else ([], c :: rest)

/-- Numeric value of a digit string. -/
def digitsVal (cs : List Char) : Nat :=
  cs.foldl (fun a c => a * 10 + (c.toNat - 48)) 0

/-- Exponent part of a float literal (after the `e`/`E`). -/
def parseExpPart (mant : Frac) (cs : List Char) : Option Frac :=
  let (neg, cs) :=
    match cs with
    | '+' :: t => (false, t)
    | '-' :: t => (true, t)
    | t => (false, t)
  let (ed, rest) := spanDigits cs
  if ed.isEmpty ∨ ¬ rest.isEmpty then none
  else
    let e := digitsVal ed
    if neg then some (mant.div (.ofNat (10 ^ e))) else some (mant.mul (.ofNat (10 ^ e)))

/-- Embedding of Python `float(s)` on decimal literals
(`[+-]?(digits[.digits]|.digits)([eE][+-]?digits)?`); `none` on anything
else.  Python additionally accepts `inf`/`nan` spellings and `_` digit
separators; those inputs are outside this model. -/
def parsePyFloat (s : String) : Option Frac :=
  let cs := s.data
  let (sgn, cs) :=
    match cs with
    | '+' :: t => ((Frac.ofNat 1), t)
    | '-' :: t => ((⟨-1, 1⟩ : Frac), t)
    | t => ((Frac.ofNat 1), t)
  let (ip, cs) := spanDigits cs
  let (fp, cs) :=
    match cs with
    | '.' :: t =>
      let (d, r) := spanDigits t
      (some d, r)
    | t => (none, t)
  if ip.isEmpty ∧ (fp.getD []).isEmpty then none
  else
    let mant := sgn.mul ((Frac.ofNat (digitsVal ip)).add
      ((Frac.ofNat (digitsVal (fp.getD []))).div (.ofNat (10 ^ (fp.getD []).length))))
    match cs with
    | [] => some mant
    | c :: t => if c = 'e' ∨ c = 'E' then parseExpPart mant t else none

/-- Embedding of Python `round(q, 2)` (round half up on exact fractions). -/
def round2 (q : Frac) : Frac :=
  (Frac.mk ((q.mul (.ofNat 100)).add ⟨1, 2⟩).floor 1).div (.ofNat 100)

/-- Python dict assignment `d[k] = v` on an association list: update the value
in place if the key exists (keeping its position), else append. -/
def dictSet (d : List (String × Val)) (k : String) (v : Val) : List (String × Val) :=
  if d.any (fun kv => kv.1 = k) then
    d.map (fun kv => if kv.1 = k then (k, v) else kv)
  else d ++ [(k, v)]

/-- Python dict lookup `d.get(k)` on an association list. -/
def dictGet (d : List (String × Val)) (k : String) : Option Val :=
  match d with
  | [] => none
  | kv :: t => if kv.1 = k then some kv.2 else dictGet t k

/-- Truthiness of an optional string field (`product.get(f)` is falsy when the
key is absent or the string is empty). -/
def truthyStr : Option String → Bool
  | none => false
  | some s => s ≠ ""

/-- Truthiness of the optional price field. -/
def truthyPrice : Option PyFloat → Bool
  | none => false
  | some f => f.pyBool

/-- Embedding of `sorted({a, b})`: the sorted, de-duplicated list of the two
strings (Python string order is code-point lexicographic). -/
def sortedPair (a b : String) : List String :=
  if a = b then [a] else if pyStrLt a b then [a, b] else [b, a]

/-! ### Unit Normalizer -/

/-- The constant `29.5735` (ounces to milliliters). -/
def OZ_TO_ML : Frac := ⟨295735, 10000⟩

/-- The constant `0.453592` (pounds to kilograms). -/
def LB_TO_KG : Frac := ⟨453592, 1000000⟩

/-- Embedding of `_convert_units`. -/
def _convert_units (key : String) (value : Val) : Val :=
  match value with
  | .str s =>
    let lower := pyLower s
    if (key = "capacity" ∨ key = "volume") ∧ (pySplit2 lower 'o' 'z').length ≠ 1 then
      match parsePyFloat (pyStrip ((pySplit2 lower 'o' 'z').headD "")) with
      | some oz =>
        .dict [("value", .num (round2 (oz.mul OZ_TO_ML))), ("unit", .str "ml"),
          ("source", .str s)]
      | none => .str s
    else if key = "weight" ∧ (pySplit2 lower 'l' 'b').length ≠ 1 then
      match parsePyFloat (pyStrip ((pySplit2 lower 'l' 'b').headD "")) with
      | some lb =>
        .dict [("value", .num (round2 (lb.mul LB_TO_KG))), ("unit", .str "kg"),
          ("source", .str s)]
      | none => .str s
    else .str s
  | v => v

example : parsePyFloat "20" = some ⟨20, 1⟩ := by decide
example : parsePyFloat "abc" = none := by decide
example : parsePyFloat "1.5" = some ⟨15, 10⟩ := by decide
example : parsePyFloat "" = none := by decide
example : round2 ((Frac.ofNat 20).mul OZ_TO_ML) = ⟨59147, 100⟩ := by decide
example : round2 ((Frac.ofNat 10).mul LB_TO_KG) = ⟨454, 100⟩ := by decide
example : pyTitle "outdoors stuff" = "Outdoors Stuff" := rfl
example : pySplit2 "20 oz" 'o' 'z' = ["20 ", ""] := rfl
example :
    _convert_units "capacity" (.str "20 oz") =
      .dict [("value", .num ⟨59147, 100⟩), ("unit", .str "ml"), ("source", .str "20 oz")] :=
  rfl
example : _convert_units "color" (.str "red") = .str "red" := rfl
example : _convert_units "capacity" (.str "abc oz") = .str "abc oz" := rfl

/-! ### Stage Functions -/

/-- The `Val` stored for `product.get("sku")` in the ingest event payload. -/
def optStrVal : Option String → Val
  | none => .pyNone
  | some s => .str s

/-- The event appended by `_node_ingest`. -/
def ingestEvent (p : Product) : WorkflowEvent :=
  ⟨"ingest", "Loaded product", some [("sku", optStrVal p.sku)]⟩

/-- The event appended by `_node_publish`. -/
def publishEvent (sku : String) : WorkflowEvent :=
  ⟨"publish", "Enriched product ready", some [("sku", .str sku)]⟩

/-- Embedding of `_fallback_extract_attributes`. -/
def _fallback_extract_attributes (p : Product) (events : List WorkflowEvent) :
    List (String × Val) × List WorkflowEvent :=
  let events := events ++ [⟨"extract", "Normalizing attributes", none⟩]
  let normalized := p.attributes.foldl
    (fun acc kv =>
      let nk := pyReplaceChar (pyLower kv.1) ' ' '_'
      dictSet acc nk (_convert_units nk kv.2))
    []
  (dictSet normalized "category" (.str (pyLower (p.category.getD "uncategorized"))), events)

/-- Embedding of `_ai_extract_attributes` (the OpenAI call and JSON parse are
the oracle; failure falls back). -/
def _ai_extract_attributes (g : TextGen) (p : Product) (events : List WorkflowEvent) :
    List (String × Val) × List WorkflowEvent :=
  match g.extractAttrs p with
  | .ok (attrs, toks) =>
    let events := events ++
      [⟨"extract", "AI extracted product attributes", some [("token_usage", .num (.ofNat toks))]⟩]
    let normalized := dictSet attrs "category" (.str (pyLower (p.category.getD "uncategorized")))
    (normalized.map (fun kv => (kv.1, _convert_units kv.1 kv.2)), events)
  | .error e =>
    let events := events ++
      [⟨"extract", "AI attribute extraction failed: " ++ e ++ ", using fallback", none⟩]
    _fallback_extract_attributes p events

/-- Embedding of `_normalize_attributes`. -/
def _normalize_attributes (cap : Option TextGen) (p : Product) (events : List WorkflowEvent) :
    List (String × Val) × List WorkflowEvent :=
  let events := events ++ [⟨"extract", "Extracting attributes with AI", none⟩]
  match cap with
  | some g => _ai_extract_attributes g p events
  | none =>
    let events := events ++ [⟨"extract", "Using fallback attribute extraction", none⟩]
    _fallback_extract_attributes p events

/-- The list of required fields that are missing or falsy, in the order
`("sku", "name", "price")` the source checks them. -/
def missingFields (p : Product) : List String :=
  (if truthyStr p.sku then [] else ["sku"]) ++
  (if truthyStr p.name then [] else ["name"]) ++
  (if truthyPrice p.price then [] else ["price"])

/-- The `ValueError` message for a missing-fields list. -/
def missingMessage (missing : List String) : String :=
  "Missing required fields: " ++ pyJoin ", " missing

/-- Embedding of `_validate_product`. -/
def _validate_product (p : Product) (events : List WorkflowEvent) :
    Except PipeError (Pricing × List WorkflowEvent) :=
  let missing := missingFields p
  if missing.isEmpty then
    let events := events ++ [⟨"validate", "Validation passed", none⟩]
    let price := p.price.getD (.finite ⟨0, 1⟩)
    .ok (⟨p.currency.getD "USD", price, price.isFinite⟩, events)
  else
    let message := missingMessage missing
    let events := events ++ [⟨"validate", message, some [("status", .str "error")]⟩]
    .error (.validation missing message events)

/-- Embedding of `_fallback_seo_copy` (`product["name"]` raises `KeyError`
when the key is absent; unreachable after a passed validation). -/
def _fallback_seo_copy (p : Product) (normalized : List (String × Val))
    (events : List WorkflowEvent) : Except PipeError (Seo × List WorkflowEvent) :=
  match p.name with
  | none => .error (.keyError "name" events)
  | some name =>
    let key_attr : Val :=
      match normalized.head? with
      | some kv => kv.2
      | none => .str (p.description.getD "")
    let title := pyStrip (name ++ " | " ++ pyTitle (p.category.getD ""))
    let featured :=
      match key_attr with
      | .str s => s
      | _ => p.description.getD ""
    let description := "Buy " ++ name ++ " featuring " ++ featured ++ "."
    let keywords := sortedPair (p.category.getD "") name
    let events := events ++ [⟨"copywrite", "Generated SEO copy", none⟩]
    .ok ({ title := title, description := pyStrip description,
           keywords := keywords.filter (fun kw => kw ≠ ""), long_description := none }, events)

/-- Embedding of `_ai_generate_seo_copy`. -/
def _ai_generate_seo_copy (g : TextGen) (p : Product) (normalized : List (String × Val))
    (events : List WorkflowEvent) : Except PipeError (Seo × List WorkflowEvent) :=
  match g.genSeo p normalized with
  | .ok (seo, toks) =>
    .ok (seo, events ++
      [⟨"copywrite", "AI generated SEO copy", some [("token_usage", .num (.ofNat toks))]⟩])
  | .error e =>
    let events := events ++ [⟨"copywrite", "AI SEO failed: " ++ e ++ ", using fallback", none⟩]
    _fallback_seo_copy p normalized events

/-- Embedding of `_build_seo_copy`. -/
def _build_seo_copy (cap : Option TextGen) (p : Product) (normalized : List (String × Val))
    (events : List WorkflowEvent) : Except PipeError (Seo × List WorkflowEvent) :=
  match cap with
  | some g => _ai_generate_seo_copy g p normalized events
  | none =>
    let events := events ++ [⟨"copywrite", "Using fallback SEO generation", none⟩]
    _fallback_seo_copy p normalized events

/-- The human-readable locale name used in localization event messages. -/
def localeName (locale : String) : String :=
  if locale = "es-ES" then "Spanish" else if locale = "fr-FR" then "French" else locale

/-- The per-locale loop of `_ai_localize_copy`: one oracle call per target
locale; a failed call appends a failure event and omits the locale. -/
def localizeLoop (g : TextGen) (base : LocalizedText) :
    List String → List WorkflowEvent → List Loc × List WorkflowEvent
  | [], events => ([], events)
  | locale :: rest, events =>
    match g.translate locale base with
    | .ok (t, toks) =>
      let entry : Loc := ⟨locale, t.title, t.description, some t.long_description⟩
      let events := events ++
        [⟨"localize", "AI localized to " ++ localeName locale,
          some [("token_usage", .num (.ofNat toks))]⟩]
      let (ls, events') := localizeLoop g base rest events
      (entry :: ls, events')
    | .error e =>
      let events := events ++
        [⟨"localize", "Localization failed for " ++ locale ++ ": " ++ e, none⟩]
      localizeLoop g base rest events

/-- Embedding of `_ai_localize_copy`: the `en-US` base entry followed by the
translated locales that succeeded. -/
def _ai_localize_copy (g : TextGen) (seo : Seo) (events : List WorkflowEvent) :
    List Loc × List WorkflowEvent :=
  let base : LocalizedText := ⟨seo.title, seo.description, seo.long_description.getD ""⟩
  let first : Loc := ⟨"en-US", base.title, base.description, some base.long_description⟩
  let (rest, events') := localizeLoop g base ["es-ES", "fr-FR"] events
  (first :: rest, events')

/-- Embedding of `_fallback_localize_copy` (the produced dict has no
`long_description` key). -/
def _fallback_localize_copy (seo : Seo) (events : List WorkflowEvent) :
    List Loc × List WorkflowEvent :=
  ([⟨"en-US", seo.title, seo.description, none⟩],
   events ++ [⟨"localize", "Generated default locale copy", none⟩])

/-- Embedding of `_localize_copy`. -/
def _localize_copy (cap : Option TextGen) (seo : Seo) (events : List WorkflowEvent) :
    List Loc × List WorkflowEvent :=
  match cap with
  | some g => _ai_localize_copy g seo events
  | none =>
    let events := events ++ [⟨"localize", "Using fallback localization", none⟩]
    _fallback_localize_copy seo events

/-! ### The six graph nodes -/

/-- Embedding of `_node_ingest`. -/
def _node_ingest (st : EnrichmentState) : Except PipeError EnrichmentState :=
  .ok { st with events := st.events ++ [ingestEvent st.product] }

/-- Embedding of `_node_extract`. -/
def _node_extract (cap : Option TextGen) (st : EnrichmentState) :
    Except PipeError EnrichmentState :=
  let r := _normalize_attributes cap st.product st.events
  .ok { st with events := r.2, normalized_attributes := some r.1 }

/-- Embedding of `_node_validate`. -/
def _node_validate (st : EnrichmentState) : Except PipeError EnrichmentState :=
  match _validate_product st.product st.events with
  | .error e => .error e
  | .ok (pricing, events) => .ok { st with events := events, pricing := some pricing }

/-- Default empty SEO dict (`state.get("seo", {})` read through `.get` with
string defaults). -/
def emptySeo : Seo := ⟨"", "", [], none⟩

/-- Embedding of `_node_copywrite`. -/
def _node_copywrite (cap : Option TextGen) (st : EnrichmentState) :
    Except PipeError EnrichmentState :=
  match _build_seo_copy cap st.product (st.normalized_attributes.getD []) st.events with
  | .error e => .error e
  | .ok (seo, events) => .ok { st with events := events, seo := some seo }

/-- Embedding of `_node_localize`. -/
def _node_localize (cap : Option TextGen) (st : EnrichmentState) :
    Except PipeError EnrichmentState :=
  let r := _localize_copy cap (st.seo.getD emptySeo) st.events
  .ok { st with events := r.2, localizations := some r.1 }

/-- Embedding of `_node_publish` (`product["sku"]` / `product["name"]`
subscripts raise `KeyError` when absent; unreachable after validation). -/
def _node_publish (st : EnrichmentState) : Except PipeError EnrichmentState :=
  match st.product.sku, st.product.name with
  | some sku, some name =>
    let enriched : Enriched :=
      ⟨sku, name, st.normalized_attributes.getD [], st.seo,
        st.localizations.getD [], st.pricing⟩
    .ok { st with events := st.events ++ [publishEvent sku], enriched := some enriched }
  | none, _ => .error (.keyError "sku" st.events)
  | some _, none => .error (.keyError "name" st.events)

/-! ### Execution Strategies -/

/-- The nodes of the compiled graph, in the edge order wired by `_get_graph`
(`ingest → extract → validate → copywrite → localize → publish → END`). -/
def graphNodes (cap : Option TextGen) : List (EnrichmentState → Except PipeError EnrichmentState) :=
  [_node_ingest, _node_extract cap, _node_validate, _node_copywrite cap,
   _node_localize cap, _node_publish]

/-- Modelled from the spec: the LangGraph runtime behind `_get_graph` /
`graph.invoke` is an external dependency (not part of this repository's
sources); per spec §4.3 the Graph Strategy runs the six nodes along the fixed
linear chain from the entry point, merging each node's partial-state update
into the shared state before the next node runs, which for these nodes is
sequential composition. -/
def graph_invoke (cap : Option TextGen) (st : EnrichmentState) :
    Except PipeError EnrichmentState :=
  (graphNodes cap).foldlM (fun s node => node s) st

/-- Embedding of `_run_sequential_pipeline`. -/
def _run_sequential_pipeline (cap : Option TextGen) (p : Product) :
    Except PipeError EnrichmentState := do
  let st : EnrichmentState := { product := p, events := [] }
  let st ← _node_ingest st
  let st ← _node_extract cap st
  let st ← _node_validate st
  let st ← _node_copywrite cap st
  let st ← _node_localize cap st
  _node_publish st

/-- The tail of `enrich_product` after the chosen strategy ran: reject a
missing `enriched` slot (`RuntimeError`), read `product["sku"]`
(`KeyError` when absent), and build the `ProcessedProduct`. -/
def enrich_finish (p : Product) : Except PipeError EnrichmentState →
    Except PipeError ProcessedProduct
  | .error e => .error e
  | .ok st =>
    match st.enriched with
    | none => .error (.runtime "Enrichment failed to produce output" st.events)
    | some enriched =>
      match p.sku with
      | none => .error (.keyError "sku" st.events)
      | some sku => .ok ⟨sku, p, enriched, st.events⟩

/-- Embedding of `enrich_product`.  `langgraph_available` is the module flag
`LANGGRAPH_AVAILABLE`; tracing configuration (LangSmith) only affects logging
and trace metadata, not the state flow, and is outside the model. -/
def enrich_product (langgraph_available : Bool) (cap : Option TextGen) (p : Product) :
    Except PipeError ProcessedProduct :=
  enrich_finish p
    (if langgraph_available then graph_invoke cap { product := p, events := [] }
     else _run_sequential_pipeline cap p)

/-! ### Batch Processor -/

/-- The loop body of `append_unique_records` from `catalog_io.py`,
specialized to `key="sku"` (an `Enriched` record always carries its key, so
the missing-key `ValueError` branch is unreachable). -/
def append_unique_go (seen : List String) (appended : List Enriched) :
    List Enriched → List Enriched
  | [] => appended
  | r :: rest =>
    if r.sku ∈ seen then append_unique_go seen appended rest
    else append_unique_go (r.sku :: seen) (appended ++ [r]) rest

/-- Embedding of `append_unique_records` (the JSON write persists the
returned list; file contents are modelled as the in-memory list). -/
def append_unique_records (existing new_records : List Enriched) : List Enriched :=
  append_unique_go (existing.map (fun r => r.sku)) existing new_records

/-- The pending computation of `process_pending_products`: simple-catalog
records whose `sku` is not among the enriched catalog's skus (a record with
no `sku` key yields Python `None`, which is never in the string set). -/
def pendingOf (simple : List Product) (cat : List Enriched) : List Product :=
  let existing_skus := cat.map (fun r => r.sku)
  simple.filter (fun p =>
    match p.sku with
    | some s => ! decide (s ∈ existing_skus)
    | none => true)

/-- Embedding of `process_pending_products`.  The two catalog files are
modelled as in-memory lists; the result is the returned `processed` list
together with the persisted enriched catalog. -/
def process_pending_products (lg : Bool) (cap : Option TextGen)
    (simple : List Product) (cat : List Enriched) (process_all : Bool) :
    List ProcessedProduct × List Enriched :=
  let pending := pendingOf simple cat
  let pending :=
    if process_all then pending
    else
      match pending.getLast? with
      | some last => [last]
      | none => pending
  let processed := pending.filterMap (fun p => (enrich_product lg cap p).toOption)
  let newCat :=
    if processed.isEmpty then cat
    else append_unique_records cat (processed.map (fun r => r.enriched))
  (processed, newCat)

/-! ### Dict lemmas -/

lemma dictGet_map_set_of_any (k : String) (v : Val) :
    ∀ d : List (String × Val), d.any (fun kv => kv.1 = k) = true →
      dictGet (d.map (fun kv => if kv.1 = k then (k, v) else kv)) k = some v := by
  intro d
  induction d with
  | nil => intro h; simp at h
  | cons kv t ih =>
    intro h
    by_cases hk : kv.1 = k
    · simp [dictGet, hk]
    · simp only [List.any_cons, Bool.or_eq_true, decide_eq_true_eq] at h
      rcases h with h | h
      · exact absurd h hk
      · simp only [List.map_cons, if_neg hk, dictGet, hk, if_false]
        exact ih h

lemma dictGet_append_single_of_not_any (k : String) (v : Val) :
    ∀ d : List (String × Val), d.any (fun kv => kv.1 = k) = false →
      dictGet (d ++ [(k, v)]) k = some v := by
  intro d
  induction d with
  | nil => intro _; simp [dictGet]
  | cons kv t ih =>
    intro h
    simp only [List.any_cons, Bool.or_eq_false_iff, decide_eq_false_iff_not] at h
    simp only [List.cons_append, dictGet, h.1, if_false]
    exact ih h.2

lemma dictGet_dictSet_self (d : List (String × Val)) (k : String) (v : Val) :
    dictGet (dictSet d k v) k = some v := by
  unfold dictSet
  by_cases h : d.any (fun kv => kv.1 = k)
  · rw [if_pos h]; exact dictGet_map_set_of_any k v d h
  · rw [if_neg h]
    exact dictGet_append_single_of_not_any k v d (Bool.eq_false_iff.mpr h)

lemma dictSet_ne_nil (d : List (String × Val)) (k : String) (v : Val) :
    dictSet d k v ≠ [] := by
  unfold dictSet
  by_cases h : d.any (fun kv => kv.1 = k)
  · rw [if_pos h]
    cases d with
    | nil => simp at h
    | cons kv t => simp
  · rw [if_neg h]
    simp

/-! ### Claim C4: unit conversion -/

/-- The Boolean condition of the ounces branch of `_convert_units`. -/
def ozBranch (key : String) (s : String) : Prop :=
  (key = "capacity" ∨ key = "volume") ∧ (pySplit2 (pyLower s) 'o' 'z').length ≠ 1

/-- The Boolean condition of the pounds branch of `_convert_units`. -/
def lbBranch (key : String) (s : String) : Prop :=
  key = "weight" ∧ (pySplit2 (pyLower s) 'l' 'b').length ≠ 1

instance (key s : String) : Decidable (ozBranch key s) := by unfold ozBranch; infer_instance

instance (key s : String) : Decidable (lbBranch key s) := by unfold lbBranch; infer_instance

/-- The numeric prefix before the first unit-token occurrence, as the code
parses it: text before the first separator occurrence, stripped, through
`float(...)`. -/
def unitPrefix (s : String) (a b : Char) : Option Frac :=
  parsePyFloat (pyStrip ((pySplit2 (pyLower s) a b).headD ""))

/-- C4: `_convert_units` is a pure, total function satisfying exactly: for
key `capacity`/`volume`, a string containing `oz` with a numeric prefix maps
to `{value: round(oz * 29.5735, 2), unit: "ml", source: original}` (so
`("capacity", "20 oz")` gives value `591.47`); for key `weight`, a string
containing `lb` with a numeric prefix maps to
`{value: round(lb * 0.453592, 2), unit: "kg", source: original}` (so
`("weight", "10 lb")` gives `4.54`); a non-numeric prefix returns the value
unchanged without raising; every other key/value combination passes through
unchanged. -/
theorem C4_convert_units_spec :
    (∀ key s oz, ozBranch key s → unitPrefix s 'o' 'z' = some oz →
      _convert_units key (.str s) =
        .dict [("value", .num (round2 (oz.mul OZ_TO_ML))), ("unit", .str "ml"),
          ("source", .str s)]) ∧
    (∀ key s lb, ¬ ozBranch key s → lbBranch key s → unitPrefix s 'l' 'b' = some lb →
      _convert_units key (.str s) =
        .dict [("value", .num (round2 (lb.mul LB_TO_KG))), ("unit", .str "kg"),
          ("source", .str s)]) ∧
    (∀ key s, ozBranch key s → unitPrefix s 'o' 'z' = none →
      _convert_units key (.str s) = .str s) ∧
    (∀ key s, ¬ ozBranch key s → lbBranch key s → unitPrefix s 'l' 'b' = none →
      _convert_units key (.str s) = .str s) ∧
    (∀ key s, ¬ ozBranch key s → ¬ lbBranch key s → _convert_units key (.str s) = .str s) ∧
    (∀ key q, _convert_units key (.num q) = .num q) ∧
    (∀ key, _convert_units key .pyNone = .pyNone) ∧
    (∀ key entries, _convert_units key (.dict entries) = .dict entries) ∧
    _convert_units "capacity" (.str "20 oz") =
      .dict [("value", .num ⟨59147, 100⟩), ("unit", .str "ml"), ("source", .str "20 oz")] ∧
    _convert_units "weight" (.str "10 lb") =
      .dict [("value", .num ⟨454, 100⟩), ("unit", .str "kg"), ("source", .str "10 lb")] ∧
    _convert_units "capacity" (.str "abc oz") = .str "abc oz" ∧
    _convert_units "color" (.str "red") = .str "red" := by
  refine ⟨?_, ?_, ?_, ?_, ?_, ?_, ?_, ?_, rfl, rfl, rfl, rfl⟩
  · intro key s oz hbr hp
    have hbr' : (key = "capacity" ∨ key = "volume") ∧
        (pySplit2 (pyLower s) 'o' 'z').length ≠ 1 := hbr
    have hp' : parsePyFloat (pyStrip ((pySplit2 (pyLower s) 'o' 'z').headD "")) = some oz := hp
    simp only [_convert_units]
    rw [if_pos hbr', hp']
  · intro key s lb hnoz hbr hp
    have hnoz' : ¬ ((key = "capacity" ∨ key = "volume") ∧
        (pySplit2 (pyLower s) 'o' 'z').length ≠ 1) := hnoz
    have hbr' : key = "weight" ∧ (pySplit2 (pyLower s) 'l' 'b').length ≠ 1 := hbr
    have hp' : parsePyFloat (pyStrip ((pySplit2 (pyLower s) 'l' 'b').headD "")) = some lb := hp
    simp only [_convert_units]
    rw [if_neg hnoz', if_pos hbr', hp']
  · intro key s hbr hp
    have hbr' : (key = "capacity" ∨ key = "volume") ∧
        (pySplit2 (pyLower s) 'o' 'z').length ≠ 1 := hbr
    have hp' : parsePyFloat (pyStrip ((pySplit2 (pyLower s) 'o' 'z').headD "")) = none := hp
    simp only [_convert_units]
    rw [if_pos hbr', hp']
  · intro key s hnoz hbr hp
    have hnoz' : ¬ ((key = "capacity" ∨ key = "volume") ∧
        (pySplit2 (pyLower s) 'o' 'z').length ≠ 1) := hnoz
    have hbr' : key = "weight" ∧ (pySplit2 (pyLower s) 'l' 'b').length ≠ 1 := hbr
    have hp' : parsePyFloat (pyStrip ((pySplit2 (pyLower s) 'l' 'b').headD "")) = none := hp
    simp only [_convert_units]
    rw [if_neg hnoz', if_pos hbr', hp']
  · intro key s hnoz hnlb
    have hnoz' : ¬ ((key = "capacity" ∨ key = "volume") ∧
        (pySplit2 (pyLower s) 'o' 'z').length ≠ 1) := hnoz
    have hnlb' : ¬ (key = "weight" ∧ (pySplit2 (pyLower s) 'l' 'b').length ≠ 1) := hnlb
    simp only [_convert_units]
    rw [if_neg hnoz', if_neg hnlb']
  · intro key q; rfl
  · intro key; rfl
  · intro key entries; rfl

/-- C4 witness: the ounces clause applied at the concrete input
`("capacity", "20 oz")`. -/
theorem C4_convert_units_witness :
    _convert_units "capacity" (.str "20 oz") =
      .dict [("value", .num (round2 ((Frac.mk 20 1).mul OZ_TO_ML))), ("unit", .str "ml"),
        ("source", .str "20 oz")] :=
  C4_convert_units_spec.1 "capacity" "20 oz" ⟨20, 1⟩ (by decide) (by decide)

/-! ### Claim C9: validation success -/

/-- C9: for every product whose `sku`, `name` and `price` are all truthy, the
validate stage appends a passed event and returns
`pricing = {currency: product currency (default "USD"), price: float(price),
in_stock: price is finite}`. -/
theorem C9_validate_success (p : Product) (events : List WorkflowEvent) (pf : PyFloat)
    (h1 : truthyStr p.sku = true) (h2 : truthyStr p.name = true)
    (h3 : p.price = some pf) (h4 : pf.pyBool = true) :
    _validate_product p events =
      .ok (⟨p.currency.getD "USD", pf, pf.isFinite⟩,
        events ++ [⟨"validate", "Validation passed", none⟩]) := by
  have hm : missingFields p = [] := by
    unfold missingFields
    rw [h1, h2, show truthyPrice p.price = true from by rw [h3]; exact h4]
    rfl
  unfold _validate_product
  rw [hm]
  simp only [List.isEmpty_nil, if_true, h3, Option.getD_some]

/-- C9 witness: the theorem applied at a concrete valid product. -/
theorem C9_validate_success_witness :
    _validate_product
        { sku := some "SKU-1", name := some "Bottle", price := some (.finite ⟨1999, 100⟩) }
        [] =
      .ok (⟨"USD", .finite ⟨1999, 100⟩, true⟩,
        [⟨"validate", "Validation passed", none⟩]) :=
  C9_validate_success
    { sku := some "SKU-1", name := some "Bottle", price := some (.finite ⟨1999, 100⟩) }
    [] (.finite ⟨1999, 100⟩) rfl rfl rfl (by decide)

/-! ### Claim C10: fallback extraction always yields a category key -/

/-- C10: the fallback attribute extraction always contains the key
`"category"`, set to the lowercased source category (or `"uncategorized"`
when absent), overwriting any raw attribute that normalizes to the same key;
consequently the produced mapping is never empty. -/
theorem C10_fallback_extract_category (p : Product) (events : List WorkflowEvent) :
    dictGet (_fallback_extract_attributes p events).1 "category" =
      some (.str (pyLower (p.category.getD "uncategorized"))) ∧
    (_fallback_extract_attributes p events).1 ≠ [] := by
  unfold _fallback_extract_attributes
  exact ⟨dictGet_dictSet_self _ _ _, dictSet_ne_nil _ _ _⟩

/-! ### Claim C7: fallback SEO copy -/

/-- The `key_attr`-derived text of `_fallback_seo_copy`: the first normalized
attribute value when it is a string, the raw description otherwise (also the
default when there are no normalized attributes). -/
def fallbackFeatured (p : Product) (normalized : List (String × Val)) : String :=
  let key_attr : Val :=
    match normalized.head? with
    | some kv => kv.2
    | none => .str (p.description.getD "")
  match key_attr with
  | .str s => s
  | _ => p.description.getD ""

/-- The SEO dict produced by the fallback copywriter for a product named
`name`. -/
def fallbackSeo (p : Product) (normalized : List (String × Val)) (name : String) : Seo :=
  { title := pyStrip (name ++ " | " ++ pyTitle (p.category.getD ""))
    description := pyStrip ("Buy " ++ name ++ " featuring " ++ fallbackFeatured p normalized ++ ".")
    keywords := (sortedPair (p.category.getD "") name).filter (fun kw => kw ≠ "")
    long_description := none }

/-- C7: when the text-generation capability is absent, or present but its
call fails, the copywrite stage returns the deterministic fallback SEO copy:
`title = "{name} | {Category title-cased}"`,
`description = "Buy {name} featuring {first normalized attribute value or
raw description}."`, and `keywords` the sorted, de-duplicated, non-empty set
of `{category, name}`. -/
theorem C7_fallback_seo (p : Product) (normalized : List (String × Val))
    (events : List WorkflowEvent) (name : String) (h : p.name = some name) :
    _build_seo_copy none p normalized events =
      .ok (fallbackSeo p normalized name,
        events ++ [⟨"copywrite", "Using fallback SEO generation", none⟩,
          ⟨"copywrite", "Generated SEO copy", none⟩]) ∧
    ∀ (g : TextGen) (e : String), g.genSeo p normalized = .error e →
      _build_seo_copy (some g) p normalized events =
        .ok (fallbackSeo p normalized name,
          events ++ [⟨"copywrite", "AI SEO failed: " ++ e ++ ", using fallback", none⟩,
            ⟨"copywrite", "Generated SEO copy", none⟩]) := by
  constructor
  · simp only [_build_seo_copy, _fallback_seo_copy, h, fallbackSeo, fallbackFeatured,
      List.append_assoc, List.singleton_append]
  · intro g e hg
    simp only [_build_seo_copy, _ai_generate_seo_copy, hg, _fallback_seo_copy, h,
      fallbackSeo, fallbackFeatured, List.append_assoc, List.singleton_append]

/-- C7 witness: `{name: "Bottle", category: "Outdoors"}` with no capability;
the produced title starts with `"Bottle | "`. -/
theorem C7_fallback_seo_witness :
    _build_seo_copy none { name := some "Bottle", category := some "Outdoors" } [] [] =
      .ok (fallbackSeo { name := some "Bottle", category := some "Outdoors" } [] "Bottle",
        [⟨"copywrite", "Using fallback SEO generation", none⟩,
         ⟨"copywrite", "Generated SEO copy", none⟩]) ∧
    "Bottle | ".data.isPrefixOf
      (fallbackSeo { name := some "Bottle", category := some "Outdoors" } [] "Bottle").title.data
      = true :=
  ⟨(C7_fallback_seo { name := some "Bottle", category := some "Outdoors" } [] [] "Bottle" rfl).1,
    by decide⟩

/-! ### Claim C8: localization always leads with the en-US base -/

/-- C8: the localize stage always returns `en-US` first, as the unmodified
base (title and description copied from the SEO copy; `long_description`
copied through `.get(…, "")` on the AI path, and omitted — like in the
source SEO dict — on the fallback path); with the capability absent the
result is exactly the one `en-US` entry. -/
theorem C8_localize_base (cap : Option TextGen) (seo : Seo) (events : List WorkflowEvent) :
    (_localize_copy cap seo events).1.head? =
      some ⟨"en-US", seo.title, seo.description,
        match cap with
        | some _ => some (seo.long_description.getD "")
        | none => none⟩ ∧
    _localize_copy none seo events =
      ([⟨"en-US", seo.title, seo.description, none⟩],
        events ++ [⟨"localize", "Using fallback localization", none⟩,
          ⟨"localize", "Generated default locale copy", none⟩]) := by
  refine ⟨?_, by simp [_localize_copy, _fallback_localize_copy]⟩
  cases cap with
  | none => rfl
  | some g =>
    show (_ai_localize_copy g seo events).1.head? = _
    unfold _ai_localize_copy
    cases hl : localizeLoop g ⟨seo.title, seo.description, seo.long_description.getD ""⟩
        ["es-ES", "fr-FR"] events with
    | mk ls evs => simp

/-! ### Claim C1: strategy equivalence -/

/-- C1: for every product record and every fixed text-generation capability
state, the Graph Strategy (the chain built by `_get_graph`, invoked in
`enrich_product`) and the Sequential Strategy (`_run_sequential_pipeline`)
produce identical results — in particular equal `sku`,
`normalized_attributes`, `seo`, `localizations` and `pricing` (and here even
equal events).  The LangGraph runtime itself is external to the repository
and is modelled per spec §4.3 as running the six nodes along the fixed chain. -/
theorem C1_strategy_equivalence (cap : Option TextGen) (p : Product) :
    enrich_product true cap p = enrich_product false cap p := by
  have h : graph_invoke cap { product := p, events := [] } = _run_sequential_pipeline cap p := by
    unfold graph_invoke graphNodes _run_sequential_pipeline
    simp only [List.foldlM, bind_pure]
  unfold enrich_product
  rw [if_pos rfl, if_neg (by exact Bool.false_ne_true), h]

/-! ### Structural lemmas about a run -/

lemma graph_eq_seq (cap : Option TextGen) (p : Product) :
    graph_invoke cap { product := p, events := [] } = _run_sequential_pipeline cap p := by
  unfold graph_invoke graphNodes _run_sequential_pipeline
  simp only [List.foldlM, bind_pure]

lemma enrich_run (lg : Bool) (cap : Option TextGen) (p : Product) :
    enrich_product lg cap p = enrich_finish p (_run_sequential_pipeline cap p) := by
  cases lg with
  | false => rfl
  | true =>
    unfold enrich_product
    rw [if_pos rfl, graph_eq_seq]

/-- Closed form of one sequential run: ingest and extract always succeed,
validation can raise, the copywriter can raise `KeyError("name")`, publish
can raise on a missing subscript, and otherwise the fully populated state is
returned. -/
lemma seq_unfold (cap : Option TextGen) (p : Product) :
    _run_sequential_pipeline cap p =
      (match _validate_product p (_normalize_attributes cap p [ingestEvent p]).2 with
       | .error e => .error e
       | .ok (pricing, evs3) =>
         match _build_seo_copy cap p (_normalize_attributes cap p [ingestEvent p]).1 evs3 with
         | .error e => .error e
         | .ok (seo, evs4) =>
           match p.sku, p.name with
           | some sku, some name =>
             .ok { product := p
                   events := (_localize_copy cap seo evs4).2 ++ [publishEvent sku]
                   normalized_attributes := some (_normalize_attributes cap p [ingestEvent p]).1
                   pricing := some pricing
                   seo := some seo
                   localizations := some (_localize_copy cap seo evs4).1
                   enriched := some ⟨sku, name, (_normalize_attributes cap p [ingestEvent p]).1,
                     some seo, (_localize_copy cap seo evs4).1, some pricing⟩ }
           | none, _ => .error (.keyError "sku" (_localize_copy cap seo evs4).2)
           | some _, none => .error (.keyError "name" (_localize_copy cap seo evs4).2)) := by
  obtain ⟨psku, pname, pdesc, pcat, pprice, pcurr, pattrs⟩ := p
  unfold _run_sequential_pipeline
  simp only [_node_ingest, _node_extract, _node_validate, _node_copywrite, _node_localize,
    _node_publish, bind, Except.bind, List.nil_append]
  cases hv : _validate_product _ (_normalize_attributes cap _ [ingestEvent _]).2 with
  | error e => rfl
  | ok pe =>
    obtain ⟨pricing, evs3⟩ := pe
    simp only [Option.getD_some]
    cases hs : _build_seo_copy cap _ (_normalize_attributes cap _ [ingestEvent _]).1 evs3 with
    | error e => rfl
    | ok se =>
      obtain ⟨seo, evs4⟩ := se
      cases psku <;> cases pname <;> rfl

/-! ### Per-stage event lemmas -/

lemma fallback_extract_events (p : Product) (evs : List WorkflowEvent) :
    (_fallback_extract_attributes p evs).2 = evs ++ [⟨"extract", "Normalizing attributes", none⟩] :=
  rfl

lemma normalize_attributes_events (cap : Option TextGen) (p : Product)
    (evs : List WorkflowEvent) :
    ∃ t, (_normalize_attributes cap p evs).2 = evs ++ t ∧ ∀ e ∈ t, e.step = "extract" := by
  cases cap with
  | none =>
    refine ⟨[⟨"extract", "Extracting attributes with AI", none⟩,
      ⟨"extract", "Using fallback attribute extraction", none⟩,
      ⟨"extract", "Normalizing attributes", none⟩], ?_, by simp⟩
    simp [_normalize_attributes, _fallback_extract_attributes]
  | some g =>
    cases hg : g.extractAttrs p with
    | ok pr =>
      obtain ⟨attrs, toks⟩ := pr
      refine ⟨[⟨"extract", "Extracting attributes with AI", none⟩,
        ⟨"extract", "AI extracted product attributes",
          some [("token_usage", .num (.ofNat toks))]⟩], ?_, by simp⟩
      simp [_normalize_attributes, _ai_extract_attributes, hg]
    | error e =>
      refine ⟨[⟨"extract", "Extracting attributes with AI", none⟩,
        ⟨"extract", "AI attribute extraction failed: " ++ e ++ ", using fallback", none⟩,
        ⟨"extract", "Normalizing attributes", none⟩], ?_, by simp⟩
      simp [_normalize_attributes, _ai_extract_attributes, hg, _fallback_extract_attributes]

/-- The validation-passed event. -/
def validatePassedEvent : WorkflowEvent := ⟨"validate", "Validation passed", none⟩

/-- The validation-error event for a missing-fields list. -/
def validateErrorEvent (missing : List String) : WorkflowEvent :=
  ⟨"validate", missingMessage missing, some [("status", .str "error")]⟩

lemma validate_ok_shape (p : Product) (evs : List WorkflowEvent) (pr : Pricing)
    (evs' : List WorkflowEvent) (h : _validate_product p evs = .ok (pr, evs')) :
    evs' = evs ++ [validatePassedEvent] := by
  unfold _validate_product at h
  by_cases hm : (missingFields p).isEmpty
  · rw [if_pos hm] at h
    exact (Prod.mk.injEq _ _ _ _ ▸ (Except.ok.injEq _ _ ▸ h)).2.symm ▸ rfl
  · rw [if_neg hm] at h
    exact absurd h (by simp)

lemma validate_error_shape (p : Product) (evs : List WorkflowEvent)
    (h : missingFields p ≠ []) :
    _validate_product p evs =
      .error (.validation (missingFields p) (missingMessage (missingFields p))
        (evs ++ [validateErrorEvent (missingFields p)])) := by
  unfold _validate_product
  rw [if_neg (by simp [List.isEmpty_iff, h])]
  rfl

lemma build_seo_events (cap : Option TextGen) (p : Product) (n : List (String × Val))
    (evs : List WorkflowEvent) (s : Seo) (evs' : List WorkflowEvent)
    (h : _build_seo_copy cap p n evs = .ok (s, evs')) :
    ∃ t, evs' = evs ++ t ∧ ∀ e ∈ t, e.step = "copywrite" := by
  cases cap with
  | none =>
    cases hn : p.name with
    | none => exfalso; simp [_build_seo_copy, _fallback_seo_copy, hn] at h
    | some name =>
      refine ⟨[⟨"copywrite", "Using fallback SEO generation", none⟩,
        ⟨"copywrite", "Generated SEO copy", none⟩], ?_, by simp⟩
      simp [_build_seo_copy, _fallback_seo_copy, hn] at h
      simp [← h.2]
  | some g =>
    cases hg : g.genSeo p n with
    | ok pr =>
      obtain ⟨s0, t0⟩ := pr
      refine ⟨[⟨"copywrite", "AI generated SEO copy",
        some [("token_usage", .num (.ofNat t0))]⟩], ?_, by simp⟩
      simp [_build_seo_copy, _ai_generate_seo_copy, hg] at h
      simp [← h.2]
    | error e =>
      cases hn : p.name with
      | none =>
        exfalso
        simp [_build_seo_copy, _ai_generate_seo_copy, hg, _fallback_seo_copy, hn] at h
      | some name =>
        refine ⟨[⟨"copywrite", "AI SEO failed: " ++ e ++ ", using fallback", none⟩,
          ⟨"copywrite", "Generated SEO copy", none⟩], ?_, by simp⟩
        simp [_build_seo_copy, _ai_generate_seo_copy, hg, _fallback_seo_copy, hn] at h
        simp [← h.2]

lemma localizeLoop_events (g : TextGen) (base : LocalizedText) :
    ∀ (locales : List String) (evs : List WorkflowEvent),
      ∃ t, (localizeLoop g base locales evs).2 = evs ++ t ∧ ∀ e ∈ t, e.step = "localize" := by
  intro locales
  induction locales with
  | nil => intro evs; exact ⟨[], by simp [localizeLoop], by simp⟩
  | cons locale rest ih =>
    intro evs
    cases ht : g.translate locale base with
    | ok pr =>
      obtain ⟨tr, toks⟩ := pr
      obtain ⟨t, ht2, hstep⟩ := ih (evs ++
        [⟨"localize", "AI localized to " ++ localeName locale,
          some [("token_usage", .num (.ofNat toks))]⟩])
      refine ⟨⟨"localize", "AI localized to " ++ localeName locale,
        some [("token_usage", .num (.ofNat toks))]⟩ :: t, ?_, ?_⟩
      · cases hl : localizeLoop g base rest (evs ++
          [⟨"localize", "AI localized to " ++ localeName locale,
            some [("token_usage", .num (.ofNat toks))]⟩]) with
        | mk ls evs2 =>
          simp only [localizeLoop, ht, hl]
          rw [hl] at ht2
          simpa using ht2
      · intro e he
        rcases List.mem_cons.mp he with h | h
        · subst h; rfl
        · exact hstep e h
    | error e =>
      obtain ⟨t, ht2, hstep⟩ := ih (evs ++
        [⟨"localize", "Localization failed for " ++ locale ++ ": " ++ e, none⟩])
      refine ⟨⟨"localize", "Localization failed for " ++ locale ++ ": " ++ e, none⟩ :: t, ?_, ?_⟩
      · simp only [localizeLoop, ht]
        simpa using ht2
      · intro e' he
        rcases List.mem_cons.mp he with h | h
        · subst h; rfl
        · exact hstep e' h

lemma localize_copy_events (cap : Option TextGen) (s : Seo) (evs : List WorkflowEvent) :
    ∃ t, (_localize_copy cap s evs).2 = evs ++ t ∧ ∀ e ∈ t, e.step = "localize" := by
  cases cap with
  | none =>
    refine ⟨[⟨"localize", "Using fallback localization", none⟩,
      ⟨"localize", "Generated default locale copy", none⟩], ?_, by simp⟩
    simp [_localize_copy, _fallback_localize_copy]
  | some g =>
    obtain ⟨t, ht, hstep⟩ := localizeLoop_events g
      ⟨s.title, s.description, s.long_description.getD ""⟩ ["es-ES", "fr-FR"] evs
    refine ⟨t, ?_, hstep⟩
    show (_ai_localize_copy g s evs).2 = evs ++ t
    simpa [_ai_localize_copy] using ht

/-! ### Claim C2: validation failure -/

/-- C2: for every product with `sku`, `name` or `price` absent or falsy, the
pipeline (either strategy) raises the validation error carrying the list of
missing field names and produces no enriched output; the event log at the
raise ends with a step-`validate` entry whose payload is
`{"status": "error"}`. -/
theorem C2_validation_failure (lg : Bool) (cap : Option TextGen) (p : Product)
    (h : missingFields p ≠ []) :
    ∃ evs, enrich_product lg cap p =
        .error (.validation (missingFields p) (missingMessage (missingFields p)) evs) ∧
      evs.getLast? = some (validateErrorEvent (missingFields p)) := by
  rw [enrich_run, seq_unfold, validate_error_shape p _ h]
  exact ⟨_, rfl, List.getLast?_concat _⟩

/-- C2 witness: a product dict carrying only a `sku`. -/
theorem C2_validation_failure_witness :
    ∃ evs, enrich_product false none { sku := some "SKU-2" } =
        .error (.validation ["name", "price"] "Missing required fields: name, price" evs) ∧
      evs.getLast? = some ⟨"validate", "Missing required fields: name, price",
        some [("status", .str "error")]⟩ :=
  C2_validation_failure false none { sku := some "SKU-2" } (by decide)

/-! ### Claim C6: event ordering -/

/-- Position of a step in the canonical six-step order (6 for a foreign
step). -/
def stepIdx (s : String) : Nat :=
  if s = "ingest" then 0 else if s = "extract" then 1 else if s = "validate" then 2
  else if s = "copywrite" then 3 else if s = "localize" then 4
  else if s = "publish" then 5 else 6

/-- The event log is monotone in the canonical stage order - equivalently,
its step sequence restricted to the six canonical steps never appears out of
the order `ingest, extract, validate, copywrite, localize, publish`. -/
def EventsMono (l : List WorkflowEvent) : Prop :=
  List.Pairwise (fun a b => stepIdx a.step ≤ stepIdx b.step) l

/-- Invariant carried stage by stage: monotone so far, all step indexes at
most `n`, and every step canonical. -/
def EventsInv (l : List WorkflowEvent) (n : Nat) : Prop :=
  EventsMono l ∧ (∀ e ∈ l, stepIdx e.step ≤ n) ∧ ∀ e ∈ l, e.step ∈ WORKFLOW_STEPS

lemma eventsInv_nil (n : Nat) : EventsInv [] n :=
  ⟨List.Pairwise.nil, by simp, by simp⟩

lemma eventsInv_extend {l t : List WorkflowEvent} {n m : Nat} (s : String)
    (hl : EventsInv l n) (ht : ∀ e ∈ t, e.step = s) (hws : s ∈ WORKFLOW_STEPS)
    (hidx : stepIdx s = m) (hnm : n ≤ m) : EventsInv (l ++ t) m := by
  obtain ⟨hmono, hub, hcanon⟩ := hl
  refine ⟨?_, ?_, ?_⟩
  · rw [EventsMono, List.pairwise_append]
    refine ⟨hmono, List.pairwise_of_forall_mem_list ?_, ?_⟩
    · intro a ha b hb
      rw [ht a ha, ht b hb]
    · intro a ha b hb
      rw [ht b hb, hidx]
      exact le_trans (hub a ha) hnm
  · intro e he
    rcases List.mem_append.mp he with h | h
    · exact le_trans (hub e h) hnm
    · rw [ht e h, hidx]
  · intro e he
    rcases List.mem_append.mp he with h | h
    · exact hcanon e h
    · rw [ht e h]; exact hws

/-- C6: on every successful run (either strategy, any capability state) the
event log's steps are all canonical and never appear out of the canonical
stage order (the step-index sequence is monotone). -/
theorem C6_event_order (lg : Bool) (cap : Option TextGen) (p : Product)
    (r : ProcessedProduct) (h : enrich_product lg cap p = .ok r) :
    (∀ e ∈ r.events, e.step ∈ WORKFLOW_STEPS) ∧ EventsMono r.events := by
  rw [enrich_run, seq_unfold] at h
  split at h
  · exact absurd h (by simp [enrich_finish])
  next pricing evs3 hv =>
    split at h
    · exact absurd h (by simp [enrich_finish])
    next seo evs4 hs =>
      split at h
      next sku name hsku hname =>
        simp only [enrich_finish, hsku, Except.ok.injEq] at h
        subst h
        show (∀ e ∈ (_localize_copy cap seo evs4).2 ++ [publishEvent sku],
            e.step ∈ WORKFLOW_STEPS) ∧
          EventsMono ((_localize_copy cap seo evs4).2 ++ [publishEvent sku])
        obtain ⟨t2, ht2, hs2⟩ := normalize_attributes_events cap p [ingestEvent p]
        have hevs3 := validate_ok_shape p _ pricing evs3 hv
        obtain ⟨t4, ht4, hs4⟩ := build_seo_events cap p _ evs3 seo evs4 hs
        obtain ⟨t5, ht5, hs5⟩ := localize_copy_events cap seo evs4
        have inv : EventsInv ((_localize_copy cap seo evs4).2 ++ [publishEvent sku]) 5 := by
          rw [ht5, ht4, hevs3, ht2]
          have i1 : EventsInv ([] ++ [ingestEvent p]) 0 :=
            eventsInv_extend "ingest" (eventsInv_nil 0) (by simp [ingestEvent]) (by decide)
              (by decide) (le_refl 0)
          rw [List.nil_append] at i1
          have i2 : EventsInv ([ingestEvent p] ++ t2) 1 :=
            eventsInv_extend "extract" i1 hs2 (by decide) (by decide) (by decide)
          have i3 : EventsInv (([ingestEvent p] ++ t2) ++ [validatePassedEvent]) 2 :=
            eventsInv_extend "validate" i2 (by simp [validatePassedEvent]) (by decide)
              (by decide) (by decide)
          have i4 : EventsInv ((([ingestEvent p] ++ t2) ++ [validatePassedEvent]) ++ t4) 3 :=
            eventsInv_extend "copywrite" i3 hs4 (by decide) (by decide) (by decide)
          have i5 : EventsInv (((([ingestEvent p] ++ t2) ++ [validatePassedEvent]) ++ t4)
              ++ t5) 4 :=
            eventsInv_extend "localize" i4 hs5 (by decide) (by decide) (by decide)
          exact eventsInv_extend "publish" i5 (by simp [publishEvent]) (by decide) (by decide)
            (by decide)
        exact ⟨inv.2.2, inv.1⟩
      next hsku =>
        exact absurd h (by simp [enrich_finish])
      next hsku hname =>
        exact absurd h (by simp [enrich_finish])

/-! ### Batch-processor lemmas -/

/-- The suffix that `append_unique_go` appends beyond its accumulator. -/
def appendedTail (seen : List String) : List Enriched → List Enriched
  | [] => []
  | r :: rest =>
    if r.sku ∈ seen then appendedTail seen rest
    else r :: appendedTail (r.sku :: seen) rest

lemma append_unique_go_eq (new : List Enriched) :
    ∀ (seen : List String) (acc : List Enriched),
      append_unique_go seen acc new = acc ++ appendedTail seen new := by
  induction new with
  | nil => intro seen acc; simp [append_unique_go, appendedTail]
  | cons r rest ih =>
    intro seen acc
    by_cases h : r.sku ∈ seen
    · simp [append_unique_go, appendedTail, h, ih]
    · simp [append_unique_go, appendedTail, h, ih]

lemma append_unique_records_eq (existing new : List Enriched) :
    append_unique_records existing new =
      existing ++ appendedTail (existing.map (fun r => r.sku)) new :=
  append_unique_go_eq new _ existing

lemma appendedTail_nodup_disjoint (new : List Enriched) :
    ∀ seen : List String,
      ((appendedTail seen new).map (fun r => r.sku)).Nodup ∧
        ∀ s ∈ (appendedTail seen new).map (fun r => r.sku), s ∉ seen := by
  induction new with
  | nil => intro seen; simp [appendedTail]
  | cons r rest ih =>
    intro seen
    by_cases h : r.sku ∈ seen
    · simpa [appendedTail, h] using ih seen
    · obtain ⟨hnd, hdis⟩ := ih (r.sku :: seen)
      refine ⟨?_, ?_⟩
      · rw [show appendedTail seen (r :: rest) = r :: appendedTail (r.sku :: seen) rest from
          by simp [appendedTail, h]]
        rw [List.map_cons, List.nodup_cons]
        exact ⟨fun hmem => (hdis r.sku hmem) (List.mem_cons_self _ _), hnd⟩
      · intro s hs
        rw [show appendedTail seen (r :: rest) = r :: appendedTail (r.sku :: seen) rest from
          by simp [appendedTail, h], List.map_cons] at hs
        rcases List.mem_cons.mp hs with rfl | hs2
        · exact h
        · exact fun hseen => (hdis s hs2) (List.mem_cons_of_mem _ hseen)

lemma mem_new_sku_mem_tail (r : Enriched) :
    ∀ (new : List Enriched) (seen : List String), r ∈ new →
      r.sku ∈ seen ∨ r.sku ∈ (appendedTail seen new).map (fun x => x.sku) := by
  intro new
  induction new with
  | nil => intro seen h; simp at h
  | cons a rest ih =>
    intro seen hmem
    by_cases h : a.sku ∈ seen
    · rcases List.mem_cons.mp hmem with rfl | hmem2
      · exact Or.inl h
      · rcases ih seen hmem2 with hl | hr
        · exact Or.inl hl
        · right; simpa [appendedTail, h] using hr
    · rcases List.mem_cons.mp hmem with rfl | hmem2
      · right; simp [appendedTail, h]
      · rcases ih (a.sku :: seen) hmem2 with hl | hr
        · rcases List.mem_cons.mp hl with heq | hseen
          · right; simp [appendedTail, h, heq]
          · exact Or.inl hseen
        · right
          rw [show appendedTail seen (a :: rest) = a :: appendedTail (a.sku :: seen) rest from
            by simp [appendedTail, h], List.map_cons]
          exact List.mem_cons_of_mem _ hr

lemma mem_new_sku_in_append (existing new : List Enriched) (r : Enriched) (h : r ∈ new) :
    r.sku ∈ (append_unique_records existing new).map (fun x => x.sku) := by
  rw [append_unique_records_eq, List.map_append]
  rcases mem_new_sku_mem_tail r new (existing.map (fun x => x.sku)) h with hl | hr
  · exact List.mem_append_left _ hl
  · exact List.mem_append_right _ hr

lemma existing_sku_in_append (existing new : List Enriched) (s : String)
    (h : s ∈ existing.map (fun x => x.sku)) :
    s ∈ (append_unique_records existing new).map (fun x => x.sku) := by
  rw [append_unique_records_eq, List.map_append]
  exact List.mem_append_left _ h

lemma enrich_ok_sku (lg : Bool) (cap : Option TextGen) (p : Product) (r : ProcessedProduct)
    (h : enrich_product lg cap p = .ok r) : p.sku = some r.enriched.sku := by
  rw [enrich_run, seq_unfold] at h
  split at h
  · exact absurd h (by simp [enrich_finish])
  next pricing evs3 hv =>
    split at h
    · exact absurd h (by simp [enrich_finish])
    next seo evs4 hs =>
      split at h
      next sku name hsku hname =>
        simp only [enrich_finish, hsku, Except.ok.injEq] at h
        subst h
        exact hsku
      next hsku => exact absurd h (by simp [enrich_finish])
      next hsku hname => exact absurd h (by simp [enrich_finish])

lemma process_fst (lg : Bool) (cap : Option TextGen) (simple : List Product)
    (cat : List Enriched) :
    (process_pending_products lg cap simple cat true).1 =
      (pendingOf simple cat).filterMap (fun p => (enrich_product lg cap p).toOption) := rfl

lemma process_snd (lg : Bool) (cap : Option TextGen) (simple : List Product)
    (cat : List Enriched) :
    (process_pending_products lg cap simple cat true).2 =
      (if ((pendingOf simple cat).filterMap
            (fun p => (enrich_product lg cap p).toOption)).isEmpty then cat
       else append_unique_records cat
         (((pendingOf simple cat).filterMap
            (fun p => (enrich_product lg cap p).toOption)).map (fun r => r.enriched))) := rfl

/-! ### Claim C3: batch idempotence -/

/-- A concrete valid product used by witnesses. -/
def bottleProduct : Product :=
  { sku := some "SKU-1", name := some "Bottle", description := some "A fine bottle",
    category := some "Outdoors", price := some (.finite ⟨1999, 100⟩), currency := some "USD",
    attributes := [("Color", .str "red")] }

/-- A concrete invalid product (only a `sku`, so `name` and `price` are
missing) used by witnesses and counterexamples. -/
def skuOnlyProduct : Product := { sku := some "SKU-2" }

/-- Fallback `ProcessedProduct` used to name concrete run results. -/
def dfltProcessed : ProcessedProduct := ⟨"", {}, ⟨"", "", [], none, [], none⟩, []⟩

/-- Error projection of an `Except` result. -/
def errOf (d : PipeError) : Except PipeError ProcessedProduct → PipeError
  | .error e => e
  | .ok _ => d

/-- C3 counterexample: with one pending record that fails validation, pending
records exist and yet the first `process_all` run returns an empty result —
refuting the claim that the first run is non-empty whenever pending records
exist. -/
theorem C3_counterexample :
    pendingOf [skuOnlyProduct] [] ≠ [] ∧
      (process_pending_products false none [skuOnlyProduct] [] true).1 = [] := by
  constructor
  · intro hcontra
    exact List.cons_ne_nil skuOnlyProduct [] hcontra
  · rfl

/-- C3 (amended): against the same pair of catalogs with `process_all=true`,
when at least one pending record enriches successfully the first run returns
a non-empty result and appends the enriched records; the second run returns
an empty result and leaves the catalog unchanged; and the records appended
by the first run carry pairwise-distinct skus, none already present — so at
most one enriched record is ever appended per sku. -/
theorem C3_batch_idempotence (lg : Bool) (cap : Option TextGen)
    (simple : List Product) (cat0 : List Enriched)
    (hex : ∃ p ∈ pendingOf simple cat0, ∃ r, enrich_product lg cap p = .ok r) :
    (process_pending_products lg cap simple cat0 true).1 ≠ [] ∧
    (process_pending_products lg cap simple
        (process_pending_products lg cap simple cat0 true).2 true).1 = [] ∧
    (process_pending_products lg cap simple
        (process_pending_products lg cap simple cat0 true).2 true).2 =
      (process_pending_products lg cap simple cat0 true).2 ∧
    ∃ tail, (process_pending_products lg cap simple cat0 true).2 = cat0 ++ tail ∧
      (tail.map (fun r => r.sku)).Nodup ∧
      ∀ s ∈ tail.map (fun r => r.sku), s ∉ cat0.map (fun r => r.sku) := by
  obtain ⟨p0, hp0, r0, hr0⟩ := hex
  have hr0mem : r0 ∈ (pendingOf simple cat0).filterMap
      (fun p => (enrich_product lg cap p).toOption) :=
    List.mem_filterMap.mpr ⟨p0, hp0, by rw [hr0]; rfl⟩
  have hfm_ne : (pendingOf simple cat0).filterMap
      (fun p => (enrich_product lg cap p).toOption) ≠ [] := List.ne_nil_of_mem hr0mem
  have hemp : ¬ ((pendingOf simple cat0).filterMap
      (fun p => (enrich_product lg cap p).toOption)).isEmpty = true := by
    rw [List.isEmpty_iff]; exact hfm_ne
  have hcat1 : (process_pending_products lg cap simple cat0 true).2 =
      append_unique_records cat0
        (((pendingOf simple cat0).filterMap
          (fun p => (enrich_product lg cap p).toOption)).map (fun r => r.enriched)) := by
    rw [process_snd, if_neg hemp]
  have hsub : ∀ s ∈ cat0.map (fun r => r.sku),
      s ∈ ((process_pending_products lg cap simple cat0 true).2).map (fun r => r.sku) := by
    intro s hsm
    rw [hcat1]
    exact existing_sku_in_append _ _ s hsm
  have hfirst : (process_pending_products lg cap simple cat0 true).1 ≠ [] := by
    rw [process_fst]; exact hfm_ne
  have hsecond : (process_pending_products lg cap simple
      (process_pending_products lg cap simple cat0 true).2 true).1 = [] := by
    rw [process_fst, List.filterMap_eq_nil_iff]
    intro p hp
    cases htoo : (enrich_product lg cap p).toOption with
    | none => rfl
    | some r =>
      exfalso
      have hok : enrich_product lg cap p = .ok r := by
        cases he : enrich_product lg cap p with
        | ok v =>
          rw [he] at htoo
          obtain rfl : v = r := by simpa [Except.toOption] using htoo
          rfl
        | error e => rw [he] at htoo; simp [Except.toOption] at htoo
      have hsku := enrich_ok_sku lg cap p r hok
      unfold pendingOf at hp
      obtain ⟨hpsimple, hpred1⟩ := List.mem_filter.mp hp
      simp only [hsku, Bool.not_eq_true', decide_eq_false_iff_not] at hpred1
      have hp0' : p ∈ pendingOf simple cat0 := by
        unfold pendingOf
        rw [List.mem_filter]
        refine ⟨hpsimple, ?_⟩
        simp only [hsku, Bool.not_eq_true', decide_eq_false_iff_not]
        intro hmem0
        exact hpred1 (hsub _ hmem0)
      have hrmem : r ∈ (pendingOf simple cat0).filterMap
          (fun q => (enrich_product lg cap q).toOption) :=
        List.mem_filterMap.mpr ⟨p, hp0', by rw [hok]; rfl⟩
      have hin : r.enriched.sku ∈
          ((process_pending_products lg cap simple cat0 true).2).map (fun x => x.sku) := by
        rw [hcat1]
        exact mem_new_sku_in_append _ _ r.enriched (List.mem_map_of_mem _ hrmem)
      exact hpred1 hin
  refine ⟨hfirst, hsecond, ?_, ?_⟩
  · have h2' : (pendingOf simple
        (process_pending_products lg cap simple cat0 true).2).filterMap
          (fun p => (enrich_product lg cap p).toOption) = [] := by
      rw [← process_fst]; exact hsecond
    rw [process_snd, h2']
    rfl
  · refine ⟨appendedTail (cat0.map (fun r => r.sku))
      (((pendingOf simple cat0).filterMap
        (fun p => (enrich_product lg cap p).toOption)).map (fun r => r.enriched)), ?_, ?_, ?_⟩
    · rw [hcat1, append_unique_records_eq]
    · exact (appendedTail_nodup_disjoint _ _).1
    · exact (appendedTail_nodup_disjoint _ _).2

example :
    enrich_product false none bottleProduct =
      .ok ((enrich_product false none bottleProduct).toOption.getD dfltProcessed) := rfl

/-- C3 witness: the amended theorem applied to a one-product catalog whose
single pending record enriches successfully. -/
theorem C3_batch_idempotence_witness :
    (process_pending_products false none [bottleProduct] [] true).1 ≠ [] ∧
    (process_pending_products false none [bottleProduct]
        (process_pending_products false none [bottleProduct] [] true).2 true).1 = [] ∧
    (process_pending_products false none [bottleProduct]
        (process_pending_products false none [bottleProduct] [] true).2 true).2 =
      (process_pending_products false none [bottleProduct] [] true).2 ∧
    ∃ tail, (process_pending_products false none [bottleProduct] [] true).2 = [] ++ tail ∧
      (tail.map (fun r => r.sku)).Nodup ∧
      ∀ s ∈ tail.map (fun r => r.sku), s ∉ ([] : List Enriched).map (fun r => r.sku) :=
  C3_batch_idempotence false none [bottleProduct] []
    ⟨bottleProduct,
      by
        have h : pendingOf [bottleProduct] [] = [bottleProduct] := rfl
        rw [h]
        exact List.mem_singleton_self _,
      (enrich_product false none bottleProduct).toOption.getD dfltProcessed, rfl⟩

/-! ### Claim C5: partial-batch resilience -/

/-- C5: when the pending set consists of one record that fails enrichment
(e.g. validation) and one that succeeds, the batch's result set is exactly
the valid record's `ProcessedProduct`; the failure is caught inside the loop
and `process_pending_products` is a total function — nothing propagates to
its caller. -/
theorem C5_partial_batch (lg : Bool) (cap : Option TextGen) (simple : List Product)
    (cat : List Enriched) (x y : Product) (e : PipeError) (r : ProcessedProduct)
    (hp : pendingOf simple cat = [x, y] ∨ pendingOf simple cat = [y, x])
    (hx : enrich_product lg cap x = .error e) (hy : enrich_product lg cap y = .ok r) :
    (process_pending_products lg cap simple cat true).1 = [r] := by
  rw [process_fst]
  rcases hp with hp | hp <;>
    rw [hp] <;> simp [List.filterMap, hx, hy, Except.toOption]

/-- C5 witness: an invalid record (missing name and price) followed by a
valid one; the batch result is exactly the valid record's output. -/
theorem C5_partial_batch_witness :
    (process_pending_products false none [skuOnlyProduct, bottleProduct] [] true).1 =
      [(enrich_product false none bottleProduct).toOption.getD dfltProcessed] :=
  C5_partial_batch false none [skuOnlyProduct, bottleProduct] [] skuOnlyProduct bottleProduct
    (errOf (.runtime "" []) (enrich_product false none skuOnlyProduct))
    ((enrich_product false none bottleProduct).toOption.getD dfltProcessed)
    (Or.inl rfl) rfl rfl

/-- C6 witness: the ordering theorem applied to a concrete successful run. -/
theorem C6_event_order_witness :
    (∀ e ∈ ((enrich_product false none bottleProduct).toOption.getD dfltProcessed).events,
        e.step ∈ WORKFLOW_STEPS) ∧
      EventsMono ((enrich_product false none bottleProduct).toOption.getD dfltProcessed).events :=
  C6_event_order false none bottleProduct _ rfl
